import Mathlib

/-!
A verification development for the dictrd dictionary server.

The definitions below are a shallow embedding of the Rust sources
(src/dictrd/lib/lib.rs, src/dictrd/lib/parser.rs, src/dictrd/lib/errors.rs,
src/dictrd/bin/main.rs):

* strings are modelled as lists of natural numbers (`Str`), one element per
  Unicode scalar value (for the body reader, one element per byte);
  Rust's byte-wise `String` ordering coincides with the element-wise
  lexicographic order on these lists;
* Rust `u64` arithmetic is modelled on `Nat` with explicit reduction
  modulo `2 ^ 64` wherever the Rust code can wrap (release-profile
  semantics, in which overflow wraps);
* fallible operations return `Except`/`Option`; a Rust panic
  (`unwrap` of `None`, out-of-bounds `Vec`/`HashMap` indexing) is modelled
  by a dedicated `Outcome.panic`/`none` result;
* the iteration order of a `HashMap` is unspecified in Rust; the registry
  is modelled as an association list and `keys()` iterates in list order.
-/

namespace Dictrd

/-- Character/byte strings: one natural number per code unit. -/
abbrev Str := List Nat

/-- The modulus of Rust `u64` arithmetic. -/
def U64 : Nat := 2 ^ 64

/-- Interpret a Lean string literal as a `Str` (its Unicode scalar values).
All literals used in this development are ASCII, where scalar values and
UTF-8 bytes coincide. -/
def s2l (s : String) : Str := s.data.map Char.toNat

/-- The error type of the dictrd library (lib/errors.rs).  The payloads
(IO error values, UTF-8 error values, static message strings) play no role
in the control flow modelled here and are dropped. -/
inductive DictError
  | IoError
  | EncodingError
  | InvalidBase64
  | SyntaxError
  | NoMatch
deriving DecidableEq

deriving instance DecidableEq for Except

/-! ### Base-64 codec (IndexReader::decode_base64, lib.rs lines 30-44) -/

/-- The per-character match of `decode_base64`: digits `'0'..='9'` map via
`ch + 4`, uppercase `'A'..='Z'` via `ch - 65`, lowercase `'a'..='z'` via
`ch - 71`, `'+'` to 62 and `'/'` to 63; anything else is an error
(`none` here). -/
def base64Digit (ch : Nat) : Option Nat :=
  if 48 ≤ ch ∧ ch ≤ 57 then some (ch + 4)
  else if 65 ≤ ch ∧ ch ≤ 90 then some (ch - 65)
  else if 97 ≤ ch ∧ ch ≤ 122 then some (ch - 71)
  else if ch = 43 then some 62
  else if ch = 47 then some 63
  else none

/-- The modulus of the Rust `as u32` cast. -/
def U32 : Nat := 2 ^ 32

/-- The accumulator loop of `decode_base64`, iterating over the already
reversed character list with position `i` and accumulator `acc`.  Each
step computes `acc + digit * 64u64.pow(i as u32)`: the cast truncates the
position modulo `2 ^ 32`, and the `u64` multiplications and the addition
wrap modulo `2 ^ 64` (release-profile semantics; wrapping repeated
multiplication makes `64u64.pow(j)` equal to `64 ^ j % 2 ^ 64`). -/
def decodeLoop : List Nat → Nat → Nat → Except DictError Nat
  | [], _, acc => .ok acc
  | ch :: rest, i, acc =>
    match base64Digit ch with
    | none => .error .InvalidBase64
    | some d =>
      decodeLoop rest (i + 1) ((acc + (d * (64 ^ (i % U32) % U64)) % U64) % U64)

/-- IndexReader::decode_base64: iterate the characters in reverse order and
sum `digit * 64.pow(i as u32)`. -/
def decode_base64 (word : Str) : Except DictError Nat :=
  decodeLoop word.reverse 0 0

/-- Reference value of a base-64 string given with least-significant digit
first: the head has weight `64 ^ 0`, the next weight `64 ^ 1`, and so on —
the unbounded sum named by the claim. -/
def b64SumRev : List Nat → Nat
  | [] => 0
  | ch :: rest => (base64Digit ch).getD 0 + 64 * b64SumRev rest

/-- The sum the loop actually accumulates (before the final `u64`
reduction): the character at position `i` carries weight
`64 ^ (i mod 2^32)` because of the `as u32` cast. -/
def b64SumRevU32 : List Nat → Nat → Nat
  | [], _ => 0
  | ch :: rest, i => (base64Digit ch).getD 0 * 64 ^ (i % U32) + b64SumRevU32 rest (i + 1)

theorem u64_pos : 0 < U64 := by simp [U64]

theorem decodeLoop_ok (l : List Nat) : ∀ (i acc : Nat), acc < U64 →
    (∀ c ∈ l, (base64Digit c).isSome) →
    decodeLoop l i acc = .ok ((acc + b64SumRevU32 l i) % U64) := by
  induction l with
  | nil =>
    intro i acc hacc _
    simp [decodeLoop, b64SumRevU32, Nat.mod_eq_of_lt hacc]
  | cons c rest ih =>
    intro i acc hacc hall
    obtain ⟨d, hd⟩ := Option.isSome_iff_exists.mp (hall c (by simp))
    have hrest : ∀ x ∈ rest, (base64Digit x).isSome := fun x hx => hall x (by simp [hx])
    simp only [decodeLoop, hd]
    rw [ih (i + 1) _ (Nat.mod_lt _ u64_pos) hrest]
    have heq : ((acc + (d * (64 ^ (i % U32) % U64)) % U64) % U64
          + b64SumRevU32 rest (i + 1)) % U64
        = (acc + b64SumRevU32 (c :: rest) i) % U64 := by
      have h1 : Nat.ModEq U64 ((d * (64 ^ (i % U32) % U64)) % U64) (d * 64 ^ (i % U32)) :=
        (Nat.mod_modEq _ _).trans ((Nat.mod_modEq _ _).mul_left d)
      have h3 : Nat.ModEq U64
          ((acc + (d * (64 ^ (i % U32) % U64)) % U64) % U64 + b64SumRevU32 rest (i + 1))
          (acc + d * 64 ^ (i % U32) + b64SumRevU32 rest (i + 1)) :=
        ((Nat.mod_modEq _ _).trans ((h1.add_left acc))).add_right _
      have h4 : acc + d * 64 ^ (i % U32) + b64SumRevU32 rest (i + 1)
          = acc + b64SumRevU32 (c :: rest) i := by
        simp only [b64SumRevU32, hd, Option.getD_some]
        ring
      exact h4 ▸ h3
    rw [heq]

/-- Below position `2 ^ 32` the truncated weights agree with the claimed
ones: the loop's sum from position `i` is the claimed sum scaled by
`64 ^ i`, provided the string ends before the positions wrap. -/
theorem b64SumRevU32_eq (l : List Nat) : ∀ i : Nat, i + l.length ≤ U32 →
    b64SumRevU32 l i = 64 ^ i * b64SumRev l := by
  induction l with
  | nil =>
    intro i _
    simp [b64SumRevU32, b64SumRev]
  | cons c rest ih =>
    intro i h
    simp only [List.length_cons] at h
    have hi : i % U32 = i := Nat.mod_eq_of_lt (by omega)
    simp only [b64SumRevU32, b64SumRev, hi, ih (i + 1) (by omega)]
    ring

theorem decodeLoop_err (l : List Nat) : ∀ (i acc : Nat),
    (∃ c ∈ l, base64Digit c = none) →
    decodeLoop l i acc = .error .InvalidBase64 := by
  induction l with
  | nil => intro i acc h; simp at h
  | cons c rest ih =>
    intro i acc h
    cases hc : base64Digit c with
    | none => simp [decodeLoop, hc]
    | some d =>
      simp only [decodeLoop, hc]
      apply ih
      rcases h with ⟨x, hx, hbad⟩
      rcases List.mem_cons.mp hx with h1 | h1
      · exact absurd hbad (by simp [h1, hc])
      · exact ⟨x, h1, hbad⟩

/-- The loop skips over `'A'` characters (digit 0) without changing the
accumulator, only advancing the position counter. -/
theorem decodeLoop_replicateA (l : List Nat) : ∀ (n i acc : Nat), acc < U64 →
    decodeLoop (List.replicate n 65 ++ l) i acc = decodeLoop l (i + n) acc := by
  intro n
  induction n with
  | zero =>
    intro i acc _
    simp
  | succ m ih =>
    intro i acc hacc
    simp only [List.replicate_succ, List.cons_append, List.append_eq, decodeLoop,
      show base64Digit 65 = some 0 from rfl, Nat.zero_mul, Nat.zero_mod,
      Nat.add_zero, Nat.mod_eq_of_lt hacc]
    rw [ih (i + 1) acc hacc]
    congr 1
    omega

theorem b64SumRev_replicateA : ∀ n : Nat,
    b64SumRev (List.replicate n 65 ++ [66]) = 64 ^ n := by
  intro n
  induction n with
  | zero => decide
  | succ m ih =>
    simp only [List.replicate_succ, List.cons_append, List.append_eq, b64SumRev,
      show base64Digit 65 = some 0 from rfl, Option.getD_some, ih]
    ring

/-- C3 counterexample, one instance per wrap.  First, `u64` overflow: the
eleven-character string `///////////` has the claimed sum
`64 ^ 11 - 1 = 73786976294838206463 ≥ 2 ^ 64`, but the decoder returns it
reduced modulo `2 ^ 64`, namely `18446744073709551615`.  Second, position
truncation: in `'B'` followed by `2 ^ 32` `'A'`s the `'B'` sits at
position `2 ^ 32`, so the claimed sum is `64 ^ (2 ^ 32)`, but
`64u64.pow(i as u32)` truncates the position to 0 and the decoder returns
`64 ^ 0 = 1`. -/
theorem C3_base64_decoder_counterexample :
    (decode_base64 (List.replicate 11 47) = .ok 18446744073709551615 ∧
      b64SumRev (List.replicate 11 47).reverse = 73786976294838206463 ∧
      (18446744073709551615 : Nat) ≠ 73786976294838206463) ∧
    decode_base64 (66 :: List.replicate U32 65) = .ok 1 ∧
    b64SumRev (66 :: List.replicate U32 65).reverse = 64 ^ U32 ∧
    (1 : Nat) ≠ 64 ^ U32 := by
  refine ⟨⟨by decide, by decide, by decide⟩, ?_, ?_, ?_⟩
  · unfold decode_base64
    rw [List.reverse_cons, List.reverse_replicate,
      decodeLoop_replicateA [66] U32 0 0 u64_pos]
    simp only [decodeLoop, show base64Digit 66 = some 1 from rfl, Nat.zero_add]
    norm_num [Nat.mod_self, U64]
  · rw [List.reverse_cons, List.reverse_replicate]
    exact b64SumRev_replicateA U32
  · intro h
    have h2 : (1 : Nat) < 64 ^ U32 := one_lt_pow' (by norm_num) (by norm_num [U32])
    omega

/-- C3 (amended): the base-64 decoder maps the four character classes as
stated, decodes the empty string to 0, and rejects any character outside
the alphabet with InvalidBase64; on an alphabet-only string it returns the
sum of `digit * 64 ^ (i mod 2^32)` over the characters in reverse order —
the source computes `64u64.pow(i as u32)`, truncating the position to 32
bits — reduced modulo `2 ^ 64` by the wrapping u64 arithmetic.  For
strings of at most `2 ^ 32` characters this is the claimed sum of
`digit * 64 ^ i` reduced modulo `2 ^ 64`, and exactly that sum whenever
it is below `2 ^ 64`. -/
theorem C3_base64_decoder :
    (∀ ch : Nat, 65 ≤ ch → ch ≤ 90 → decode_base64 [ch] = .ok (ch - 65)) ∧
    (∀ ch : Nat, 97 ≤ ch → ch ≤ 122 → decode_base64 [ch] = .ok (ch - 97 + 26)) ∧
    (∀ ch : Nat, 48 ≤ ch → ch ≤ 57 → decode_base64 [ch] = .ok (ch - 48 + 52)) ∧
    decode_base64 (s2l "+") = .ok 62 ∧
    decode_base64 (s2l "/") = .ok 63 ∧
    decode_base64 [] = .ok 0 ∧
    (∀ w : Str, (∃ c ∈ w, base64Digit c = none) →
      decode_base64 w = .error .InvalidBase64) ∧
    (∀ w : Str, (∀ c ∈ w, (base64Digit c).isSome) →
      decode_base64 w = .ok (b64SumRevU32 w.reverse 0 % U64)) ∧
    (∀ w : Str, (∀ c ∈ w, (base64Digit c).isSome) → w.length ≤ U32 →
      decode_base64 w = .ok (b64SumRev w.reverse % U64)) ∧
    (∀ w : Str, (∀ c ∈ w, (base64Digit c).isSome) → w.length ≤ U32 →
      b64SumRev w.reverse < U64 → decode_base64 w = .ok (b64SumRev w.reverse)) := by
  have hgen : ∀ w : Str, (∀ c ∈ w, (base64Digit c).isSome) →
      decode_base64 w = .ok (b64SumRevU32 w.reverse 0 % U64) := by
    intro w hw
    unfold decode_base64
    rw [decodeLoop_ok _ 0 0 u64_pos (fun c hc => hw c (List.mem_reverse.mp hc))]
    simp
  have hbounded : ∀ w : Str, (∀ c ∈ w, (base64Digit c).isSome) → w.length ≤ U32 →
      decode_base64 w = .ok (b64SumRev w.reverse % U64) := by
    intro w hw hlen
    rw [hgen w hw, b64SumRevU32_eq w.reverse 0 (by simpa using hlen)]
    simp
  have hsingle : ∀ ch d : Nat, base64Digit ch = some d → d < U64 →
      decode_base64 [ch] = .ok d := by
    intro ch d hd hdlt
    have h := hbounded [ch] (by intro c hc; simp at hc; simp [hc, hd])
      (by norm_num [U32])
    rw [h]
    simp [b64SumRev, hd, Nat.mod_eq_of_lt hdlt]
  refine ⟨?_, ?_, ?_, ?_, ?_, by rfl, ?_, hgen, hbounded, ?_⟩
  · intro ch h1 h2
    have hd : base64Digit ch = some (ch - 65) := by
      unfold base64Digit
      rw [if_neg (by omega), if_pos (by omega)]
    exact hsingle ch (ch - 65) hd (by simp only [U64]; omega)
  · intro ch h1 h2
    have hd : base64Digit ch = some (ch - 97 + 26) := by
      unfold base64Digit
      rw [if_neg (by omega), if_neg (by omega), if_pos (by omega)]
      congr 1
      omega
    exact hsingle ch (ch - 97 + 26) hd (by simp only [U64]; omega)
  · intro ch h1 h2
    have hd : base64Digit ch = some (ch - 48 + 52) := by
      unfold base64Digit
      rw [if_pos (by omega)]
      congr 1
      omega
    exact hsingle ch (ch - 48 + 52) hd (by simp only [U64]; omega)
  · exact hsingle 43 62 (by decide) (by simp only [U64]; omega)
  · exact hsingle 47 63 (by decide) (by simp only [U64]; omega)
  · intro w hw
    unfold decode_base64
    exact decodeLoop_err _ 0 0 (by
      rcases hw with ⟨c, hc, hbad⟩
      exact ⟨c, List.mem_reverse.mpr hc, hbad⟩)
  · intro w hw hlen hlt
    rw [hbounded w hw hlen, Nat.mod_eq_of_lt hlt]

/-- Concrete instantiation of C3 (amended): the string "Bc0" is
all-alphabet, shorter than `2 ^ 32`, has a representable sum, and decodes
to 1 * 64 ^ 2 + 28 * 64 ^ 1 + 52 * 64 ^ 0 = 5940. -/
theorem C3_base64_decoder_witness :
    (∀ c ∈ s2l "Bc0", (base64Digit c).isSome) ∧
    (s2l "Bc0").length ≤ U32 ∧
    decode_base64 (s2l "Bc0") = .ok (b64SumRev (s2l "Bc0").reverse) ∧
    b64SumRev (s2l "Bc0").reverse = 5940 := by
  refine ⟨by decide, by decide, ?_, by decide⟩
  exact (C3_base64_decoder.2.2.2.2.2.2.2.2.2) (s2l "Bc0") (by decide) (by decide)
    (by decide)

/-! ### Body reader (DictReader, lib.rs lines 103-128) -/

/-- Continuation byte of a UTF-8 sequence: `0x80..=0xBF`. -/
def isCont (b : Nat) : Bool := decide (128 ≤ b ∧ b ≤ 191)

/-- UTF-8 validity of a byte sequence, exactly the check performed by
Rust's `String::from_utf8` (well-formed sequences, no surrogates, no
overlong encodings, maximum scalar value `0x10FFFF`). -/
def utf8Valid : List Nat → Bool
  | [] => true
  | b :: rest =>
    if b < 128 then utf8Valid rest
    else if b < 194 then false
    else if b ≤ 223 then
      match rest with
      | c1 :: r => isCont c1 && utf8Valid r
      | [] => false
    else if b ≤ 239 then
      match rest with
      | c1 :: c2 :: r =>
        (if b = 224 then decide (160 ≤ c1 ∧ c1 ≤ 191)
         else if b = 237 then decide (128 ≤ c1 ∧ c1 ≤ 159)
         else isCont c1) && isCont c2 && utf8Valid r
      | _ => false
    else if b ≤ 244 then
      match rest with
      | c1 :: c2 :: c3 :: r =>
        (if b = 240 then decide (144 ≤ c1 ∧ c1 ≤ 191)
         else if b = 244 then decide (128 ≤ c1 ∧ c1 ≤ 143)
         else isCont c1) && isCont c2 && isCont c3 && utf8Valid r
      | _ => false
    else false

namespace DictReader

/-- DictReader::find.  The reader's `len` is the byte length of the body,
captured at open time by seeking to the end; `body` is the file content.
The bounds check is `offset >= len || offset + len > len` in `u64`
arithmetic (the sum wraps); when it passes, the reader seeks to `offset`
and `read_exact`s `length` bytes — which fails with an IO error if the file
is too short, reachable only when the sum wrapped — and finally decodes the
buffer with `String::from_utf8`, failing with EncodingError on invalid
UTF-8.  A Rust `String` is represented by its (valid) byte list. -/
def find (body : Str) (offset len : Nat) : Except DictError Str :=
  if body.length ≤ offset ∨ body.length < (offset + len) % U64 then
    .error .SyntaxError
  else if body.length < offset + len then .error .IoError
  else
    let buffer := (body.drop offset).take len
    if utf8Valid buffer then .ok buffer else .error .EncodingError

end DictReader

/-- C2 counterexample: on the five-byte body "hello", the request
`offset = 5, length = 0` satisfies `offset + length ≤ bodysize`, so the
claim says it succeeds; the code rejects it with SyntaxError because it
also requires `offset < bodysize`. -/
theorem C2_find_bounds_counterexample :
    5 + 0 ≤ (s2l "hello").length ∧
    DictReader.find (s2l "hello") 5 0 = .error DictError.SyntaxError := by
  constructor
  · decide
  · decide

/-- C2 amended: provided `offset + length` does not overflow a u64,
`find(offset, length)` fails with SyntaxError exactly when the invariant
`offset < bodysize AND offset + length ≤ bodysize` is violated; when the
invariant holds and the addressed bytes are valid UTF-8 it succeeds and
returns exactly those `length` bytes starting at `offset` (and every
success is of this shape). -/
theorem C2_find_bounds_amended (body : Str) (offset len : Nat)
    (hno : offset + len < U64) :
    (DictReader.find body offset len = .error DictError.SyntaxError ↔
      ¬(offset < body.length ∧ offset + len ≤ body.length)) ∧
    (offset < body.length → offset + len ≤ body.length →
      utf8Valid ((body.drop offset).take len) = true →
      DictReader.find body offset len = .ok ((body.drop offset).take len)) ∧
    (∀ s, DictReader.find body offset len = .ok s →
      offset < body.length ∧ offset + len ≤ body.length ∧
      s = (body.drop offset).take len ∧ utf8Valid s = true) := by
  unfold DictReader.find
  rw [Nat.mod_eq_of_lt hno]
  by_cases hb : body.length ≤ offset ∨ body.length < offset + len
  · rw [if_pos hb]
    refine ⟨by simp; omega, ?_, ?_⟩
    · intro h1 h2
      omega
    · intro s hs
      simp at hs
  · rw [if_neg hb]
    push_neg at hb
    rw [if_neg (by omega)]
    refine ⟨?_, ?_, ?_⟩
    · simp only [iff_iff_implies_and_implies]
      constructor
      · intro h
        by_cases hv : utf8Valid ((body.drop offset).take len) = true
        · rw [if_pos hv] at h
          simp at h
        · rw [if_neg hv] at h
          simp at h
      · intro h
        omega
    · intro _ _ hv
      rw [if_pos hv]
    · intro s hs
      by_cases hv : utf8Valid ((body.drop offset).take len) = true
      · rw [if_pos hv] at hs
        simp only [Except.ok.injEq] at hs
        exact ⟨by omega, by omega, hs.symm, hs ▸ hv⟩
      · rw [if_neg hv] at hs
        simp at hs

/-- Concrete instantiation of C2 (amended): reading the whole two-byte
body "hi" succeeds and returns it. -/
theorem C2_find_bounds_witness :
    DictReader.find (s2l "hi") 0 2 = .ok (((s2l "hi").drop 0).take 2) :=
  (C2_find_bounds_amended (s2l "hi") 0 2 (by simp [U64])).2.1
    (by decide) (by decide) (by decide)

/-! ### Index reader (IndexReader, lib.rs lines 15-101) -/

/-- One line of a parsed index: headword plus the byte range it addresses
in the body file. -/
structure IndexEntry where
  word : Str
  offset : Nat
  length : Nat
deriving DecidableEq

/-- Rust `String::cmp`: byte-wise lexicographic comparison.  On lists of
Unicode scalar values this elementwise comparison coincides with the
byte-wise order, because UTF-8 preserves the scalar-value order. -/
def cmpWords : Str → Str → Ordering
  | [], [] => .eq
  | [], _ :: _ => .lt
  | _ :: _, [] => .gt
  | a :: as1, b :: bs1 =>
    if a < b then .lt else if b < a then .gt else cmpWords as1 bs1

/-- The non-strict order induced by `cmpWords`, i.e. "does not compare
Greater". -/
def wordLe (a b : Str) : Bool :=
  match cmpWords a b with
  | .gt => false
  | _ => true

theorem cmpWords_cons_iff (x y : Nat) (xs ys : Str) :
    cmpWords (x :: xs) (y :: ys) = .lt ↔ x < y ∨ (x = y ∧ cmpWords xs ys = .lt) := by
  simp only [cmpWords]
  rcases Nat.lt_trichotomy x y with h | h | h
  · rw [if_pos h]
    simp
    omega
  · subst h
    rw [if_neg (by omega), if_neg (by omega)]
    simp
  · rw [if_neg (by omega), if_pos h]
    simp
    omega

theorem cmpWords_eq_iff : ∀ (a b : Str), cmpWords a b = .eq ↔ a = b
  | [], [] => by simp [cmpWords]
  | [], _ :: _ => by simp [cmpWords]
  | _ :: _, [] => by simp [cmpWords]
  | a :: as1, b :: bs1 => by
    simp only [cmpWords]
    rcases Nat.lt_trichotomy a b with h | h | h
    · rw [if_pos h]
      simp only [List.cons.injEq]
      constructor
      · intro hx
        cases hx
      · rintro ⟨rfl, -⟩
        omega
    · subst h
      rw [if_neg (by omega), if_neg (by omega)]
      simp [cmpWords_eq_iff as1 bs1]
    · rw [if_neg (by omega), if_pos h]
      simp only [List.cons.injEq]
      constructor
      · intro hx
        cases hx
      · rintro ⟨rfl, -⟩
        omega

theorem cmpWords_gt_iff : ∀ (a b : Str), cmpWords a b = .gt ↔ cmpWords b a = .lt
  | [], [] => by simp [cmpWords]
  | [], _ :: _ => by simp [cmpWords]
  | _ :: _, [] => by simp [cmpWords]
  | a :: as1, b :: bs1 => by
    rw [cmpWords_cons_iff]
    simp only [cmpWords]
    rcases Nat.lt_trichotomy a b with h | h | h
    · rw [if_pos h]
      simp
      omega
    · subst h
      rw [if_neg (by omega), if_neg (by omega)]
      simp [cmpWords_gt_iff as1 bs1]
    · rw [if_neg (by omega), if_pos h]
      simp
      omega

theorem cmpWords_lt_trans : ∀ (a b c : Str),
    cmpWords a b = .lt → cmpWords b c = .lt → cmpWords a c = .lt := by
  intro a
  induction a with
  | nil =>
    intro b c hab hbc
    cases c with
    | nil =>
      cases b with
      | nil => simp [cmpWords] at hab
      | cons y ys => simp [cmpWords] at hbc
    | cons z zs => simp [cmpWords]
  | cons x xs ih =>
    intro b c hab hbc
    cases b with
    | nil => simp [cmpWords] at hab
    | cons y ys =>
      cases c with
      | nil => simp [cmpWords] at hbc
      | cons z zs =>
        rw [cmpWords_cons_iff] at hab hbc ⊢
        rcases hab with h1 | ⟨rfl, h1⟩ <;> rcases hbc with h2 | ⟨rfl, h2⟩
        · exact Or.inl (by omega)
        · exact Or.inl h1
        · exact Or.inl h2
        · exact Or.inr ⟨rfl, ih ys zs h1 h2⟩

theorem wordLe_iff (a b : Str) : wordLe a b = true ↔ cmpWords a b ≠ .gt := by
  unfold wordLe
  cases h : cmpWords a b <;> simp

theorem wordLe_refl (a : Str) : wordLe a a = true := by
  rw [wordLe_iff, (cmpWords_eq_iff a a).mpr rfl]
  simp

theorem wordLe_false_iff (a b : Str) : wordLe a b = false ↔ cmpWords a b = .gt := by
  unfold wordLe
  cases h : cmpWords a b <;> simp

theorem wordLe_total (a b : Str) : (wordLe a b || wordLe b a) = true := by
  rcases h1 : wordLe a b with _ | _
  · rcases h2 : wordLe b a with _ | _
    · exfalso
      rw [wordLe_false_iff] at h1 h2
      rw [cmpWords_gt_iff] at h1
      rw [h1] at h2
      cases h2
    · simp
  · simp

theorem wordLe_trans (a b c : Str) (h1 : wordLe a b = true) (h2 : wordLe b c = true) :
    wordLe a c = true := by
  rw [wordLe_iff] at h1 h2 ⊢
  rcases hab : cmpWords a b with _ | _ | _
  · rcases hbc : cmpWords b c with _ | _ | _
    · simp [cmpWords_lt_trans a b c hab hbc]
    · rw [← (cmpWords_eq_iff b c).mp hbc]
      exact h1
    · exact absurd hbc h2
  · rw [(cmpWords_eq_iff a b).mp hab]
    exact h2
  · exact absurd hab h1

/-- Rust `str::split(sep)`: splitting on every occurrence of the
separator; `n` separators yield `n + 1` fields, the empty string yields
one empty field. -/
def listSplit (sep : Nat) : Str → List Str
  | [] => [[]]
  | c :: rest =>
    if c = sep then [] :: listSplit sep rest
    else
      match listSplit sep rest with
      | [] => [[c]]
      | f :: fs => (c :: f) :: fs

/-- IndexReader::parse_line: split the line on TAB, take the first three
fields (`word`, base-64 `offset`, base-64 `length`), decode the two
numbers.  The Rust code `unwrap`s both the missing-field and the decode
errors, which would panic; `none` models that panic. -/
def parse_line (line : Str) : Option IndexEntry :=
  match listSplit 9 line with
  | word :: offsetF :: lengthF :: _ =>
    match decode_base64 offsetF, decode_base64 lengthF with
    | .ok o, .ok l => some ⟨word, o, l⟩
    | _, _ => none
  | _ => none

/-- IndexReader::parse_dict_index: parse every line (any line that panics
the Rust loop is `none` here) and stably sort the entries ascending by
word, via `sort_by(|e1, e2| e1.word.cmp(&e2.word))`.  Rust's `sort_by` is
a stable ascending sort by the comparator; `List.mergeSort` with the
non-strict `wordLe` is exactly that (both are the unique stable sort for
this total preorder). -/
def parse_dict_index (lines : List Str) : Option (List IndexEntry) :=
  match lines.mapM parse_line with
  | none => none
  | some entries => some (entries.mergeSort (fun e1 e2 => wordLe e1.word e2.word))

/-- The loop body of Rust `slice::binary_search_by` with comparator
`|entry| entry.word.cmp(&word)`: probe `mid = left + (right - left) / 2`,
move `left` past `mid` on Less, cut `right` to `mid` on Greater, stop on
Equal.  The window `right - left` shrinks on every iteration, so running
the body with any fuel of at least `right - left` computes the Rust loop
exactly; the fuel makes the recursion structural. -/
def binarySearchFuel (idx : List IndexEntry) (w : Str) :
    Nat → Nat → Nat → Option Nat
  | 0, _, _ => none
  | fuel + 1, left, right =>
    if left < right then
      match cmpWords (idx.getD (left + (right - left) / 2) ⟨[], 0, 0⟩).word w with
      | .lt => binarySearchFuel idx w fuel (left + (right - left) / 2 + 1) right
      | .gt => binarySearchFuel idx w fuel left (left + (right - left) / 2)
      | .eq => some (left + (right - left) / 2)
    else none

/-- Rust `slice::binary_search_by` on the window `left..right`. -/
def binarySearchGo (idx : List IndexEntry) (w : Str) (left right : Nat) :
    Option Nat :=
  binarySearchFuel idx w (right - left) left right

/-- IndexReader::find_word: binary search over the whole index; on a hit
return the entry's `(offset, length)`, otherwise NoMatch. -/
def find_word (idx : List IndexEntry) (w : Str) : Except DictError (Nat × Nat) :=
  match binarySearchGo idx w 0 idx.length with
  | some i => .ok ((idx.getD i ⟨[], 0, 0⟩).offset, (idx.getD i ⟨[], 0, 0⟩).length)
  | none => .error .NoMatch

/-- Rust `str::starts_with` on our string representation. -/
def strStartsWith : Str → Str → Bool
  | _, [] => true
  | [], _ :: _ => false
  | c :: cs, p :: ps => decide (c = p) && strStartsWith cs ps

/-- IndexReader::find_words_by_prefix (renamed for Lean): linear scan
keeping, in index order, every entry whose word starts with the query. -/
def findWordsByPref (idx : List IndexEntry) (w : Str) : List IndexEntry :=
  idx.filter (fun e => strStartsWith e.word w)

/-- IndexReader::find_random: `choose` returns None exactly on an empty
slice, otherwise a uniformly random element; the random draw is abstracted
by the parameter `r`. -/
def find_random (r : Nat) (idx : List IndexEntry) :
    Except DictError (Str × Nat × Nat) :=
  match idx with
  | [] => .error .NoMatch
  | _ :: _ =>
    let e := idx.getD (r % idx.length) ⟨[], 0, 0⟩
    .ok (e.word, e.offset, e.length)

theorem getDElem {α : Type} (l : List α) (d : α) {n : Nat} (h : n < l.length) :
    l.getD n d = l[n] := by
  simp [List.getD_eq_getElem?_getD, List.getElem?_eq_getElem h]

theorem pairwise_wordLe_getD {idx : List IndexEntry}
    (hs : idx.Pairwise (fun e1 e2 => wordLe e1.word e2.word = true))
    {i j : Nat} (hij : i ≤ j) (hj : j < idx.length) :
    wordLe (idx.getD i ⟨[], 0, 0⟩).word (idx.getD j ⟨[], 0, 0⟩).word = true := by
  rcases Nat.eq_or_lt_of_le hij with rfl | hlt
  · exact wordLe_refl _
  · have hi : i < idx.length := lt_trans hlt hj
    rw [getDElem _ _ hi, getDElem _ _ hj]
    exact List.pairwise_iff_getElem.mp hs i j hi hj hlt

theorem binarySearchFuel_some (idx : List IndexEntry) (w : Str) :
    ∀ (fuel left right i : Nat), right - left ≤ fuel → right ≤ idx.length →
    binarySearchFuel idx w fuel left right = some i →
    i < idx.length ∧ (idx.getD i ⟨[], 0, 0⟩).word = w := by
  intro fuel
  induction fuel with
  | zero =>
    intro left right i _ _ hrun
    cases hrun
  | succ n ih =>
    intro left right i hfuel hlen hrun
    rw [binarySearchFuel] at hrun
    by_cases hlr : left < right
    · rw [if_pos hlr] at hrun
      rcases hc : cmpWords (idx.getD (left + (right - left) / 2) ⟨[], 0, 0⟩).word w
        with _ | _ | _ <;> simp only [hc] at hrun
      · exact ih (left + (right - left) / 2 + 1) right i (by omega) hlen hrun
      · simp only [Option.some.injEq] at hrun
        subst hrun
        exact ⟨by omega, (cmpWords_eq_iff _ _).mp hc⟩
      · exact ih left (left + (right - left) / 2) i (by omega) (by omega) hrun
    · rw [if_neg hlr] at hrun
      cases hrun

theorem binarySearchFuel_complete (idx : List IndexEntry) (w : Str)
    (hs : idx.Pairwise (fun e1 e2 => wordLe e1.word e2.word = true)) :
    ∀ (fuel left right j : Nat), right - left ≤ fuel → right ≤ idx.length →
    left ≤ j → j < right → (idx.getD j ⟨[], 0, 0⟩).word = w →
    ∃ i, binarySearchFuel idx w fuel left right = some i := by
  intro fuel
  induction fuel with
  | zero =>
    intro left right j h1 _ h3 h4 _
    omega
  | succ n ih =>
    intro left right j h1 hlen h3 h4 h5
    have hlr : left < right := by omega
    rw [binarySearchFuel, if_pos hlr]
    rcases hc : cmpWords (idx.getD (left + (right - left) / 2) ⟨[], 0, 0⟩).word w
      with _ | _ | _ <;> simp only [hc]
    · -- the probed word is below w, so the witness lies strictly right of mid
      have hjmid : left + (right - left) / 2 < j := by
        by_contra hle
        have hle2 : wordLe (idx.getD j ⟨[], 0, 0⟩).word
            (idx.getD (left + (right - left) / 2) ⟨[], 0, 0⟩).word = true :=
          pairwise_wordLe_getD hs (by omega) (by omega)
        rw [h5, wordLe_iff] at hle2
        exact hle2 ((cmpWords_gt_iff _ _).mpr hc)
      exact ih (left + (right - left) / 2 + 1) right j (by omega) hlen (by omega) h4 h5
    · exact ⟨_, rfl⟩
    · -- the probed word is above w, so the witness lies strictly left of mid
      have hjmid : j < left + (right - left) / 2 := by
        by_contra hle
        have hle2 : wordLe (idx.getD (left + (right - left) / 2) ⟨[], 0, 0⟩).word
            (idx.getD j ⟨[], 0, 0⟩).word = true :=
          pairwise_wordLe_getD hs (by omega) (by omega)
        rw [h5, wordLe_iff] at hle2
        exact hle2 hc
      exact ih left (left + (right - left) / 2) j (by omega) (by omega) h3 hjmid h5

theorem find_word_spec (idx : List IndexEntry) (w : Str)
    (hs : idx.Pairwise (fun e1 e2 => wordLe e1.word e2.word = true)) :
    ((∃ e ∈ idx, e.word = w) →
      ∃ o l, find_word idx w = .ok (o, l) ∧
        ∃ e ∈ idx, e.word = w ∧ e.offset = o ∧ e.length = l) ∧
    ((∀ e ∈ idx, e.word ≠ w) → find_word idx w = .error .NoMatch) := by
  constructor
  · rintro ⟨e, he, hw⟩
    obtain ⟨j, hj, hje⟩ := List.mem_iff_getElem.mp he
    have hgd : (idx.getD j ⟨[], 0, 0⟩).word = w := by
      rw [getDElem _ _ hj, hje, hw]
    obtain ⟨i, hi⟩ := binarySearchFuel_complete idx w hs (idx.length - 0) 0 idx.length j
      (by omega) le_rfl (Nat.zero_le _) hj hgd
    have hsound := binarySearchFuel_some idx w (idx.length - 0) 0 idx.length i
      (by omega) le_rfl hi
    refine ⟨(idx.getD i ⟨[], 0, 0⟩).offset, (idx.getD i ⟨[], 0, 0⟩).length, ?_, ?_⟩
    · unfold find_word binarySearchGo
      rw [hi]
    · refine ⟨idx.getD i ⟨[], 0, 0⟩, ?_, hsound.2, rfl, rfl⟩
      rw [getDElem _ _ hsound.1]
      exact List.getElem_mem hsound.1
  · intro hnone
    unfold find_word binarySearchGo
    rcases hrun : binarySearchFuel idx w (idx.length - 0) 0 idx.length with _ | i
    · rfl
    · exfalso
      have h := binarySearchFuel_some idx w (idx.length - 0) 0 idx.length i
        (by omega) le_rfl hrun
      have hmem : idx.getD i ⟨[], 0, 0⟩ ∈ idx := by
        rw [getDElem _ _ h.1]
        exact List.getElem_mem h.1
      exact hnone _ hmem h.2

theorem entryLe_trans (a b c : IndexEntry) (h1 : wordLe a.word b.word)
    (h2 : wordLe b.word c.word) : wordLe a.word c.word :=
  wordLe_trans _ _ _ h1 h2

theorem entryLe_total (a b : IndexEntry) :
    (wordLe a.word b.word || wordLe b.word a.word) = true :=
  wordLe_total _ _

/-- C4: whenever `parse_dict_index` loads an index (no line panics the
loader), the entry vector is a stably sorted ascending permutation of the
parsed entries, ordered by the raw word bytes — sorted as `Pairwise wordLe`,
stable in the sense that any weakly sorted sublist of the parsed input
survives as a sublist of the result — and `find_word w` returns the
`(offset, length)` of some entry with word exactly `w` whenever one is
present, and NoMatch when no entry has word `w`. -/
theorem C4_sorted_index_find_word (lines : List Str) (idx : List IndexEntry)
    (hload : parse_dict_index lines = some idx) :
    (∃ entries, lines.mapM parse_line = some entries ∧
      idx.Perm entries ∧
      ∀ c : List IndexEntry,
        c.Pairwise (fun e1 e2 => wordLe e1.word e2.word = true) →
        c.Sublist entries → c.Sublist idx) ∧
    idx.Pairwise (fun e1 e2 => wordLe e1.word e2.word = true) ∧
    ∀ w : Str,
      ((∃ e ∈ idx, e.word = w) →
        ∃ o l, find_word idx w = .ok (o, l) ∧
          ∃ e ∈ idx, e.word = w ∧ e.offset = o ∧ e.length = l) ∧
      ((∀ e ∈ idx, e.word ≠ w) → find_word idx w = .error DictError.NoMatch) := by
  unfold parse_dict_index at hload
  rcases hm : lines.mapM parse_line with _ | entries
  · rw [hm] at hload
    cases hload
  · rw [hm] at hload
    simp only [Option.some.injEq] at hload
    subst hload
    have hsorted := List.sorted_mergeSort entryLe_trans entryLe_total entries
    exact ⟨⟨entries, rfl, List.mergeSort_perm _ _,
      fun c hc hsub => List.sublist_mergeSort entryLe_trans entryLe_total hc hsub⟩,
      hsorted, fun w => find_word_spec _ w hsorted⟩

/-- Concrete index used to instantiate C4 and later dispatcher claims. -/
def linesEx : List Str := [s2l "bb\tB\tC", s2l "aa\tA\tB"]

/-- The entries of `linesEx` before sorting ("B" decodes to 1, "C" to 2,
"A" to 0). -/
def entriesEx : List IndexEntry := [⟨s2l "bb", 1, 2⟩, ⟨s2l "aa", 0, 1⟩]

/-- The index loaded from `linesEx`: parsed then sorted by word. -/
def idxEx : List IndexEntry := [⟨s2l "aa", 0, 1⟩, ⟨s2l "bb", 1, 2⟩]

theorem parse_dict_index_linesEx : parse_dict_index linesEx = some idxEx := by
  have hm : linesEx.mapM parse_line = some entriesEx := by decide
  unfold parse_dict_index
  rw [hm]
  simp only [Option.some.injEq, entriesEx, idxEx]
  simp [List.mergeSort, List.merge, wordLe, cmpWords, s2l]

/-- Concrete instantiation of C4: loading `linesEx` sorts the two entries
and `find_word` retrieves the entry for "aa". -/
theorem C4_sorted_index_find_word_witness :
    parse_dict_index linesEx = some idxEx ∧
    find_word idxEx (s2l "aa") = .ok (0, 1) ∧
    find_word idxEx (s2l "zz") = .error DictError.NoMatch := by
  have h := C4_sorted_index_find_word linesEx idxEx parse_dict_index_linesEx
  have h2 := (h.2.2 (s2l "zz")).2 (by decide)
  exact ⟨parse_dict_index_linesEx, by decide, h2⟩

/-! ### Command tokenizer (Parser::parse, parser.rs lines 67-157) -/

/-- Unicode White_Space, the exact 25-code-point set tested by Rust's
char::is_whitespace. -/
def isWhitespaceCh (c : Nat) : Bool :=
  decide (c = 9 ∨ c = 10 ∨ c = 11 ∨ c = 12 ∨ c = 13 ∨ c = 32 ∨ c = 133 ∨
    c = 160 ∨ c = 5760 ∨ (8192 ≤ c ∧ c ≤ 8202) ∨ c = 8232 ∨ c = 8233 ∨
    c = 8239 ∨ c = 8287 ∨ c = 12288)

/-- Rust char::is_alphanumeric on the ASCII range (the full Unicode tables
are not reproduced here; every input occurring in a settled statement is
ASCII, and no settled statement depends on how non-ASCII letters
classify). -/
def isAlnumCh (c : Nat) : Bool :=
  decide ((48 ≤ c ∧ c ≤ 57) ∨ (65 ≤ c ∧ c ≤ 90) ∨ (97 ≤ c ∧ c ≤ 122))

/-- Rust char::is_ascii_punctuation: the four ASCII punctuation ranges. -/
def isPunctCh (c : Nat) : Bool :=
  decide ((33 ≤ c ∧ c ≤ 47) ∨ (58 ≤ c ∧ c ≤ 64) ∨ (91 ≤ c ∧ c ≤ 96) ∨
    (123 ≤ c ∧ c ≤ 126))

/-- The mutable state of Parser::parse's character loop: the token being
built, the skip-whitespace and in-argument flags, the inside-double-quote
flag, the pending-escape flag (`quote` in the source), and the finished
tokens. -/
structure PState where
  arg : Str
  skipWs : Bool
  inArg : Bool
  inDbl : Bool
  quote : Bool
  args : List Str
deriving DecidableEq

/-- One iteration of Parser::parse's character loop.  The source runs three
sequential `if` blocks after the escape handling; a whitespace character
never satisfies the final alphanumeric/punctuation test and a `"` is
explicitly excluded from it, so the sequential composition is written as
the if/else chain below.  Note the quirks kept from the source: a closing
`"` pushes the finished token and then seeds the cleared buffer with the
quote character itself, and a whitespace with `skip_whitespace` unset
pushes the (possibly empty) buffer. -/
def pstep (s : PState) (ch : Nat) : PState :=
  if s.quote then
    if s.inDbl ∧ ch = 34 then { s with arg := s.arg ++ [ch], quote := false }
    else { s with quote := false }
  else if ch = 92 then { s with quote := true }
  else
    let s1 :=
      if ch = 34 then
        if s.inDbl then
          { s with args := s.args ++ [s.arg], arg := [ch], inArg := false,
                   inDbl := false, skipWs := true }
        else { s with inDbl := true }
      else s
    if isWhitespaceCh ch then
      if s1.inDbl then { s1 with arg := s1.arg ++ [ch] }
      else if s1.skipWs then s1
      else { s1 with args := s1.args ++ [s1.arg], arg := [], skipWs := true }
    else if isAlnumCh ch || (isPunctCh ch && ch ≠ 34) then
      { s1 with inArg := true, skipWs := false, arg := s1.arg ++ [ch] }
    else s1

/-- The token vector produced by Parser::parse's loop; after the loop the
pending buffer is appended only when `in_arg` is still set. -/
def tokenize (line : Str) : List Str :=
  let s := line.foldl pstep ⟨[], false, false, false, false, []⟩
  if s.inArg then s.args ++ [s.arg] else s.args

/-- The command variants of parser.rs. -/
inductive Cmd
  | Unknown | Define | Match | Show | Client | Status | Help | Quit
  | Option | Auth | SaslAuth | SaslResp
deriving DecidableEq

/-- ASCII uppercase mapping (agrees with Rust to_uppercase on ASCII). -/
def upChar (c : Nat) : Nat := if 97 ≤ c ∧ c ≤ 122 then c - 32 else c

def toUpper (s : Str) : Str := s.map upChar

/-- ASCII lowercase mapping (agrees with Rust to_lowercase on ASCII). -/
def lowChar (c : Nat) : Nat := if 65 ≤ c ∧ c ≤ 90 then c + 32 else c

def toLower (s : Str) : Str := s.map lowChar

/-- The verb match of Parser::parse on the uppercased first token. -/
def cmdOfVerb (v : Str) : Cmd :=
  if v = s2l "DEFINE" then .Define
  else if v = s2l "MATCH" then .Match
  else if v = s2l "SHOW" then .Show
  else if v = s2l "CLIENT" then .Client
  else if v = s2l "STATUS" then .Status
  else if v = s2l "HELP" then .Help
  else if v = s2l "QUIT" then .Quit
  else if v = s2l "OPTION" then .Option
  else if v = s2l "AUTH" then .Auth
  else if v = s2l "SASLAUTH" then .SaslAuth
  else if v = s2l "SASLRESP" then .SaslResp
  else .Unknown

/-- A parsed command: the variant plus the full token vector (the verb
stays in `params[0]`). -/
structure Command where
  cmd : Cmd
  params : List Str
deriving DecidableEq

/-- Parser::parse: tokenize, report a syntax error on zero tokens (the
session loop answers `500 I/O error`), otherwise classify the first
token. -/
def Parser.parse (line : Str) : Except Unit Command :=
  match tokenize line with
  | [] => .error ()
  | args => .ok ⟨cmdOfVerb (toUpper (args.getD 0 [])), args⟩

/-- C5 counterexample: in the line `x\yz` the backslash escapes `y`
outside double quotes.  The claim says the escaped character is taken
verbatim, i.e. appears in the resulting token; the code instead drops it:
the only token is "xz" and no token contains `y` (code point 121). -/
theorem C5_escape_counterexample :
    tokenize (s2l "x\\yz") = [s2l "xz"] ∧
    ∀ t ∈ tokenize (s2l "x\\yz"), ¬ 121 ∈ t := by
  constructor
  · decide
  · decide

/-- C5 amended: a backslash escapes (consumes) the following character
`ch`, and `ch` is inserted into the current token only in the single case
where the tokenizer is inside double quotes and `ch` is the double quote:
then `\"` appends a literal quote.  In every other case — in particular
for every escaped character outside double quotes — both the backslash
and `ch` are dropped and the state is unchanged, so the escaped character
does not appear in the token. -/
theorem C5_escape_amended (s : PState) (ch : Nat) (hq : s.quote = false) :
    pstep (pstep s 92) ch =
      (if s.inDbl = true ∧ ch = 34 then { s with arg := s.arg ++ [34] }
       else s) := by
  obtain ⟨arg, skipWs, inArg, inDbl, quote, args⟩ := s
  simp only at hq
  subst hq
  cases hd : inDbl <;> by_cases hc : ch = 34 <;>
    simp [pstep, hd, hc]

/-- Concrete instantiation of C5 (amended): inside double quotes the pair
`\"` appends a literal quote to the current token; outside double quotes
the pair `\y` leaves the tokenizer state unchanged. -/
theorem C5_escape_amended_witness :
    pstep (pstep ⟨[], false, false, true, false, []⟩ 92) 34 =
      ⟨[34], false, false, true, false, []⟩ ∧
    pstep (pstep ⟨[], false, false, false, false, []⟩ 92) 121 =
      ⟨[], false, false, false, false, []⟩ := by
  constructor
  · rw [C5_escape_amended _ _ rfl]
    decide
  · rw [C5_escape_amended _ _ rfl]
    decide

/-! ### Command dispatcher (DictdServer, bin/main.rs) -/

/-- One loaded database of the server (bin/main.rs `Database`): the
metadata strings plus the index entries and body bytes held by its two
readers. -/
structure Database where
  shortname : Str
  description : Str
  info : Str
  index : List IndexEntry
  body : Str
deriving DecidableEq

/-- The server's database registry.  Rust uses a HashMap whose iteration
order is unspecified; it is modelled as an association list whose `keys()`
iterate in list order. -/
abbrev Registry := List (Str × Database)

/-- HashMap::contains_key (DictdServer::database_exists). -/
def containsKey (reg : Registry) (k : Str) : Bool :=
  reg.any (fun p => decide (p.1 = k))

/-- HashMap lookup: `get` returns an Option; the panicking `Index`
operator is this lookup followed by a panic on `none`. -/
def lookupKey : Registry → Str → Option Database
  | [], _ => none
  | p :: rest, k => if p.1 = k then some p.2 else lookupKey rest k

/-- The observable result of one dispatcher command: the bytes written to
the client, or a panic (out-of-bounds `Vec`/`HashMap` index) together with
the bytes written before it. -/
inductive Outcome
  | ok (out : Str)
  | panic (out : Str)
deriving DecidableEq

/-- Decimal rendering of a number, as Rust's `{}` formatting of a count. -/
def natToStr (n : Nat) : Str := s2l (Nat.repr n)

/-- The fixed strategy table installed by DictdServer::new; HashMap
iteration order is unspecified and modelled by insertion order. -/
def strategyTable : List (Str × Str) :=
  [(s2l "exact", s2l "Match headwords exactly"),
   (s2l "prefix", s2l "Match prefixes")]

/-- DictdServer::strategy_exists: contains_key on the strategy table. -/
def strategy_exists (strategy : Str) : Bool :=
  strategyTable.any (fun p => decide (p.1 = strategy))

/-- The database-token handling shared verbatim by command_define and
command_match: "*" and "!" collect every registry key in iteration order
(the match_all/match_one flags are set but never read again); any other
non-empty token must exist in the registry, else the 550 reply; an
existing name — or the empty token, which short-circuits the check —
selects just itself. -/
def selectDatabases (reg : Registry) (database : Str) : Except Str (List Str) :=
  if database = s2l "*" ∨ database = s2l "!" then .ok (reg.map Prod.fst)
  else if database ≠ [] ∧ containsKey reg database = false then
    .error (s2l "550 Invalid database, use \"SHOW DB\" for list of databases\n")
  else .ok [database]

/-- The lookup-and-reply tail of command_define: lowercase the word and
retain only alphanumeric/whitespace characters, index the collected names
at 0 (Vec index: panics on an empty collection), index the registry with
that name (HashMap index: panics when the key is absent), then find_word
and DictReader::find and the reply block.  Only `databases[0]` is ever
queried — the source marks the missing iteration with
`// TODO: Loop over databases according to rules`. -/
def defineLookup (reg : Registry) (databases : List Str) (rawWord : Str) :
    Outcome :=
  let word := (toLower rawWord).filter (fun c => isAlnumCh c || isWhitespaceCh c)
  match databases with
  | [] => .panic []
  | db0 :: _ =>
    match lookupKey reg db0 with
    | none => .panic []
    | some db =>
      match find_word db.index word with
      | .error _ => .ok (s2l "552 no match\n")
      | .ok (offset, length) =>
        match DictReader.find db.body offset length with
        | .error _ => .ok (s2l "XXX NOT FOUND\n")
        | .ok res =>
          .ok (s2l "150 1 definition retrieved\n" ++
               s2l "151 \"" ++ word ++ s2l "\" " ++ db.shortname ++ s2l " \"" ++
               db.description ++ s2l "\"\n" ++ res ++ s2l ".\n" ++ s2l "250 ok\n")

/-- DictdServer::command_define (main.rs lines 270-342). -/
def command_define (reg : Registry) (params : List Str) : Outcome :=
  if params.length < 3 then .ok (s2l "501 Syntax error, illegal parameters\n")
  else
    match selectDatabases reg (params.getD 1 []) with
    | .error reply => .ok reply
    | .ok databases => defineLookup reg databases (params.getD 2 [])

/-- The per-database loop of command_match: for each collected name, the
chosen strategy indexes the registry (HashMap index: panics when the key
is absent, modelled by `none`) and contributes its pairs — "exact" at most
one pair carrying the queried word, "prefix" one pair per entry whose word
extends the query, any other strategy nothing (and no registry access).
Pairs accumulate in loop order; a panic discards everything (the reply is
only written after the loop). -/
def matchLoop (reg : Registry) (strategy word : Str) :
    List Str → Option (List (Str × IndexEntry))
  | [] => some []
  | db :: rest =>
    let step : Option (List (Str × IndexEntry)) :=
      if strategy = s2l "exact" then
        match lookupKey reg db with
        | none => none
        | some d =>
          match find_word d.index word with
          | .ok (o, l) => some [(db, ⟨word, o, l⟩)]
          | .error _ => some []
      else if strategy = s2l "prefix" then
        match lookupKey reg db with
        | none => none
        | some d => some ((findWordsByPref d.index word).map (fun e => (db, e)))
      else some []
    match step, matchLoop reg strategy word rest with
    | some here, some acc => some (here ++ acc)
    | _, _ => none

/-- DictdServer::command_match (main.rs lines 345-445). -/
def command_match (reg : Registry) (params : List Str) : Outcome :=
  if params.length ≠ 4 then .ok (s2l "501 Syntax error, illegal parameters\n")
  else if strategy_exists (params.getD 2 []) = false then
    .ok (s2l "551 Invalid stragegy, use \"SHOW STRATS\" for a list of strategies\n")
  else
    match selectDatabases reg (params.getD 1 []) with
    | .error reply => .ok reply
    | .ok databases =>
      match matchLoop reg (params.getD 2 []) (toLower (params.getD 3 []))
          databases with
      | none => .panic []
      | some results =>
        if results.isEmpty = false then
          .ok (s2l "152 " ++ natToStr results.length ++
               s2l " matche(s) found: list follows\n" ++
               (results.map
                 (fun p => p.1 ++ s2l " \"" ++ p.2.word ++ s2l "\"\n")).flatten ++
               s2l ".\n" ++ s2l "250 ok\n")
        else .ok (s2l "552 no match\n")

/-- DictdServer::command_show (main.rs lines 492-565).  The arity guard of
the source is `if !cmd.params.len() == 2 && !(cmd.params.len() == 3 &&
cmd.params[1].to_uppercase() == "INFO")`: the `!` binds to the length
alone, so the left operand is the bitwise complement `2^64 - 1 - len`
compared with 2 — never true for a real token count — and the guard never
fires.  The subsequent `cmd.params[1]` panics on a one-token command. -/
def command_show (reg : Registry) (params : List Str) : Outcome :=
  if U64 - 1 - params.length = 2 ∧
      ¬(params.length = 3 ∧ toUpper (params.getD 1 []) = s2l "INFO") then
    .ok (s2l "501 Syntax error, illegal parameters\n")
  else
    match params[1]? with
    | none => .panic []
    | some p1 =>
      let sub := toUpper p1
      if sub = s2l "DB" ∨ sub = s2l "DATABASES" then
        .ok (s2l "110 " ++ natToStr reg.length ++ s2l " database(s) present\n" ++
             (reg.map
               (fun p => p.1 ++ s2l " \"" ++ p.2.description ++ s2l "\"\n")).flatten ++
             s2l ".\n" ++ s2l "250 ok\n")
      else if sub = s2l "STRAT" ∨ sub = s2l "STRATEGIES" then
        .ok (s2l "111 " ++ natToStr strategyTable.length ++
             s2l " strategies present\n" ++
             (strategyTable.map
               (fun p => p.1 ++ s2l " \"" ++ p.2 ++ s2l "\"\n")).flatten ++
             s2l ".\n" ++ s2l "250 ok\n")
      else if sub = s2l "SERVER" then
        .ok (s2l "114 server information\n" ++ s2l "\n.\n")
      else if sub = s2l "INFO" then
        if params.length ≠ 3 then
          .ok (s2l "501 Syntax error, illegal parameters\n")
        else if containsKey reg (params.getD 2 []) = false then
          .ok (s2l "550 Invalid database, use \"SHOW DB\" for list of databases\n")
        else
          match lookupKey reg (params.getD 2 []) with
          | none => .panic []
          | some db =>
            .ok (s2l "112 database information follows\n" ++ db.description ++
                 s2l ".\n" ++ db.info ++ s2l ".\n" ++ s2l "250 ok\n")
      else .ok (s2l "501 Syntax error, illegal parameters\n")

/-- DictdServer::command_random (main.rs lines 447-476), the XRANDOM
handler: `get("jargon")` — when the database is absent the whole body is
skipped and nothing at all is written; otherwise a random entry (draw
abstracted by `r`) is emitted like a DEFINE match, with NoMatch (empty
index) and a failed body read both answered by 552. -/
def command_random (r : Nat) (reg : Registry) : Outcome :=
  match lookupKey reg (s2l "jargon") with
  | none => .ok []
  | some db =>
    match find_random r db.index with
    | .error _ => .ok (s2l "552 no match\n")
    | .ok (word, offset, length) =>
      match DictReader.find db.body offset length with
      | .error _ => .ok (s2l "552 no match\n")
      | .ok res =>
        .ok (s2l "150 1 definition retrieved\n" ++
             s2l "151 \"" ++ word ++ s2l "\" " ++ db.shortname ++ s2l " \"" ++
             db.description ++ s2l "\"\n" ++ res ++ s2l ".\n" ++ s2l "250 ok\n")

theorem lookupKey_eq_none {reg : Registry} {k : Str}
    (h : containsKey reg k = false) : lookupKey reg k = none := by
  induction reg with
  | nil => rfl
  | cons p rest ih =>
    simp only [containsKey, List.any_cons, Bool.or_eq_false_iff,
      decide_eq_false_iff_not] at h
    simp only [lookupKey, if_neg h.1]
    exact ih (by simp [containsKey, h.2])

theorem containsKey_of_lookup {reg : Registry} {k : Str} {db : Database}
    (h : lookupKey reg k = some db) : containsKey reg k = true := by
  induction reg with
  | nil => cases h
  | cons p rest ih =>
    by_cases hp : p.1 = k
    · simp [containsKey, hp]
    · simp only [lookupKey, if_neg hp] at h
      simp only [containsKey, List.any_cons, Bool.or_eq_true]
      exact Or.inr (by simpa [containsKey] using ih h)

/-! ### Concrete registries for the dispatcher claims -/

/-- A single-entry database named "aa" defining the word "w". -/
def dbA : Database := ⟨s2l "aa", s2l "descA", s2l "infoA", [⟨s2l "w", 0, 2⟩], s2l "A\n"⟩

/-- A single-entry database named "bb" that also defines "w". -/
def dbB : Database := ⟨s2l "bb", s2l "descB", s2l "infoB", [⟨s2l "w", 0, 2⟩], s2l "B\n"⟩

/-- A registry holding both databases, "aa" first in iteration order. -/
def regAB : Registry := [(s2l "aa", dbA), (s2l "bb", dbB)]

/-- A registry whose only database is a "jargon" with an empty index. -/
def regJ : Registry := [(s2l "jargon", ⟨s2l "jargon", s2l "D", s2l "I", [], []⟩)]

/-- C1: both databases of `regAB` define the word "w", yet
`DEFINE * w` produces exactly one definition block, taken from the first
collected registry key only — the dispatcher never queries the rest (the
source marks the missing loop with `// TODO: Loop over databases
according to rules`), contradicting "queries every database and streams
all matches". -/
theorem C1_define_star_queries_only_first :
    find_word dbB.index (s2l "w") = .ok (0, 2) ∧
    command_define regAB [s2l "DEFINE", s2l "*", s2l "w"] =
      .ok (s2l "150 1 definition retrieved\n151 \"w\" aa \"descA\"\nA\n.\n250 ok\n") := by
  constructor
  · decide
  · decide

/-- C6: the broken arity guard (`!cmd.params.len() == 2`) never fires, so
the one-token command `SHOW` reaches `cmd.params[1]` and panics instead of
replying 501; a two-token `SHOW` with an unknown subcommand does reach the
501 fallback. -/
theorem C6_show_bare_panics :
    command_show regAB [s2l "SHOW"] = .panic [] ∧
    command_show regAB [s2l "SHOW", s2l "FOO"] =
      .ok (s2l "501 Syntax error, illegal parameters\n") := by
  constructor
  · decide
  · decide

/-- C7 counterexample: a MATCH with the unknown strategy "regex" is
answered with the misspelled line `551 Invalid stragegy, ...`, not the
line stated in the claim. -/
theorem C7_invalid_strategy_counterexample :
    command_match regAB [s2l "MATCH", s2l "aa", s2l "regex", s2l "ack"] =
      .ok (s2l "551 Invalid stragegy, use \"SHOW STRATS\" for a list of strategies\n") ∧
    s2l "551 Invalid stragegy, use \"SHOW STRATS\" for a list of strategies\n" ≠
      s2l "551 Invalid strategy, use \"SHOW STRATS\" for a list of strategies\n" := by
  constructor
  · decide
  · decide

/-- C7 amended: every 4-token MATCH whose strategy token is not in the
strategy registry (neither "exact" nor "prefix") is answered with exactly
the line `551 Invalid stragegy, use "SHOW STRATS" for a list of
strategies` — the source misspells "strategy" in this reply. -/
theorem C7_invalid_strategy_amended (reg : Registry) (p0 db strat w : Str)
    (hs : strategy_exists strat = false) :
    command_match reg [p0, db, strat, w] =
      .ok (s2l "551 Invalid stragegy, use \"SHOW STRATS\" for a list of strategies\n") := by
  unfold command_match
  simp [hs]

/-- Concrete instantiation of C7 (amended) at the strategy "regex". -/
theorem C7_invalid_strategy_amended_witness :
    command_match regJ [s2l "MATCH", s2l "jargon", s2l "regex", s2l "ack"] =
      .ok (s2l "551 Invalid stragegy, use \"SHOW STRATS\" for a list of strategies\n") :=
  C7_invalid_strategy_amended regJ (s2l "MATCH") (s2l "jargon") (s2l "regex")
    (s2l "ack") (by decide)

/-- C8 counterexample: `SHOW INFO jargon` against `regJ` (description "D",
info "I") produces `112 database information follows\nD.\nI.\n250 ok\n` —
the `.` terminators are glued to the description and info text, so the
output differs from the claimed shape in which each `.` stands alone on
its own line. -/
theorem C8_show_info_counterexample :
    command_show regJ [s2l "SHOW", s2l "INFO", s2l "jargon"] =
      .ok (s2l "112 database information follows\nD.\nI.\n250 ok\n") ∧
    s2l "112 database information follows\nD.\nI.\n250 ok\n" ≠
      s2l "112 database information follows\nD\n.\nI\n.\n250 ok\n" := by
  constructor
  · decide
  · decide

/-- C8 amended: for a 3-token `SHOW INFO <db>` naming a registered
database, the reply is `112 database information follows` and a newline,
then the description immediately followed by `.` and a newline, then the
info immediately followed by `.` and a newline, then `250 ok` — the code
writes no newline between the description (or info) and its `.`
terminator. -/
theorem C8_show_info_amended (reg : Registry) (p0 p1 dbname : Str)
    (db : Database) (h1 : toUpper p1 = s2l "INFO")
    (h2 : lookupKey reg dbname = some db) :
    command_show reg [p0, p1, dbname] =
      .ok (s2l "112 database information follows\n" ++ db.description ++
           s2l ".\n" ++ db.info ++ s2l ".\n" ++ s2l "250 ok\n") := by
  have hck := containsKey_of_lookup h2
  unfold command_show
  rw [if_neg (by
    rintro ⟨hlen, -⟩
    simp only [List.length_cons, List.length_nil, U64] at hlen
    omega)]
  simp only [List.getElem?_cons_succ, List.getElem?_cons_zero,
    List.getD_cons_succ, List.getD_cons_zero, List.length_cons,
    List.length_nil, h1]
  rw [if_neg (by decide), if_neg (by decide), if_neg (by decide),
    if_pos trivial, if_neg (by simp), if_neg (by simp [hck])]
  simp [h2]

/-- Concrete instantiation of C8 (amended) on `regJ`. -/
theorem C8_show_info_amended_witness :
    command_show regJ [s2l "SHOW", s2l "INFO", s2l "jargon"] =
      .ok (s2l "112 database information follows\n" ++ s2l "D" ++
           s2l ".\n" ++ s2l "I" ++ s2l ".\n" ++ s2l "250 ok\n") :=
  C8_show_info_amended regJ (s2l "SHOW") (s2l "INFO") (s2l "jargon")
    ⟨s2l "jargon", s2l "D", s2l "I", [], []⟩ (by decide) (by decide)

/-- C9 counterexample: with no database named "jargon" in the registry,
XRANDOM writes nothing at all — the handler's `if let Some` simply falls
through — rather than the `552 no match` stated by the claim. -/
theorem C9_xrandom_counterexample :
    command_random 0 regAB = .ok [] ∧
    Outcome.ok [] ≠ Outcome.ok (s2l "552 no match\n") := by
  constructor
  · decide
  · decide

/-- C9 amended: if "jargon" is absent from the registry, XRANDOM sends no
reply at all; if "jargon" is present but its index is empty, it replies
`552 no match`. -/
theorem C9_xrandom_amended (r : Nat) (reg : Registry) :
    (lookupKey reg (s2l "jargon") = none → command_random r reg = .ok []) ∧
    (∀ db, lookupKey reg (s2l "jargon") = some db → db.index = [] →
      command_random r reg = .ok (s2l "552 no match\n")) := by
  constructor
  · intro h
    unfold command_random
    rw [h]
  · intro db h hidx
    unfold command_random
    rw [h]
    simp [find_random, hidx]

/-- Concrete instantiation of C9 (amended): `regAB` has no "jargon"
database (silence); `regJ` has one with an empty index (552). -/
theorem C9_xrandom_amended_witness :
    command_random 0 regAB = .ok [] ∧
    command_random 0 regJ = .ok (s2l "552 no match\n") := by
  constructor
  · exact (C9_xrandom_amended 0 regAB).1 (by decide)
  · exact (C9_xrandom_amended 0 regJ).2 ⟨s2l "jargon", s2l "D", s2l "I", [], []⟩
      (by decide) rfl

/-- C10: when the database token is the empty string, the 550 existence
check is short-circuited (`!database.is_empty() && ...`), so no 550 reply
is sent; command_define — and likewise command_match with a valid
strategy — then indexes the registry with the empty name, which panics in
any registry that has no database named "", with nothing written. -/
theorem C10_empty_database_token (reg : Registry) (p0 w : Str)
    (rest : List Str) (h : containsKey reg [] = false) :
    command_define reg (p0 :: [] :: w :: rest) = .panic [] ∧
    command_match reg [p0, [], s2l "exact", w] = .panic [] := by
  have hnone := lookupKey_eq_none h
  constructor
  · unfold command_define
    rw [if_neg (by simp only [List.length_cons]; omega)]
    simp only [List.getD_cons_succ, List.getD_cons_zero]
    unfold selectDatabases
    rw [if_neg (by decide), if_neg (by simp)]
    unfold defineLookup
    simp [hnone]
  · unfold command_match
    simp only [List.getD_cons_succ, List.getD_cons_zero, List.length_cons,
      List.length_nil]
    rw [if_neg (by omega), if_neg (by decide)]
    unfold selectDatabases
    rw [if_neg (by decide), if_neg (by simp)]
    unfold matchLoop
    simp [hnone]

/-- Concrete instantiation of C10 on `regAB` (which has no database named
""). -/
theorem C10_empty_database_token_witness :
    command_define regAB [s2l "DEFINE", [], s2l "w"] = .panic [] ∧
    command_match regAB [s2l "MATCH", [], s2l "exact", s2l "w"] = .panic [] :=
  C10_empty_database_token regAB (s2l "DEFINE") (s2l "w") [] (by decide)

end Dictrd
